import Mathlib

namespace Storm

/-! Shallow embedding of the Storm External Service Credential Vault and
    Secure Proxy.  The dashboard pages (`APIKeys.tsx`, `ExternalServiceKeys.tsx`)
    are embedded from their TypeScript source; the backend components (Secret
    Store, Masking Policy, Credential Vault, Rate Limiter, Secure Request Proxy,
    Webhook Dispatcher, Sync Engine) are not among the shown sources, so they
    are modelled from the specification's contracts. -/

/-- Sensitivity classification of a stored value (spec section 3 and the
    integration docs' Data Sensitivity Levels). -/
inductive Sensitivity
  | public
  | internal
  | confidential
  | restricted
  deriving DecidableEq

/-- Last `n` elements of a character list. -/
def lastN (n : Nat) (l : List Char) : List Char := l.drop (l.length - n)

/-- Number of characters left visible at each end of a masked preview.  The
    relationship between sensitivity and masking depth is configurable per the
    spec's design notes; this model fixes one consistent shape bounded by 4. -/
def visibleCount : Sensitivity → Nat
  | .public => 4
  | .internal => 4
  | .confidential => 2
  | .restricted => 0

/-- Fixed-shape mask: visible head, constant filler, visible tail. -/
def maskChars (c : Nat) (l : List Char) : List Char :=
  l.take c ++ ['*', '*', '*', '*'] ++ lastN c l

/-- Modelled from the spec: the Masking Policy `preview(plaintext, sensitivity)`
    of spec section 4.2 (the backend implementation is missing from src/):
    `restricted` collapses to a constant redaction marker, lower sensitivities
    reveal a bounded prefix and suffix around a constant filler. -/
def preview (p : String) (s : Sensitivity) : String :=
  match s with
  | .restricted => "[REDACTED]"
  | s => String.mk (maskChars (visibleCount s) p.data)

theorem take_of_take_four (c : Nat) (hc : c ≤ 4) (l₁ l₂ : List Char)
    (h : l₁.take 4 = l₂.take 4) : l₁.take c = l₂.take c := by
  have h₁ : l₁.take c = (l₁.take 4).take c := by
    rw [List.take_take, Nat.min_eq_left hc]
  have h₂ : l₂.take c = (l₂.take 4).take c := by
    rw [List.take_take, Nat.min_eq_left hc]
  rw [h₁, h₂, h]

theorem lastN_lastN (m n : Nat) (hmn : m ≤ n) (l : List Char) :
    lastN m (lastN n l) = lastN m l := by
  unfold lastN
  rw [List.length_drop, List.drop_drop]
  congr 1
  omega

theorem maskChars_depends_on_ends (c : Nat) (hc : c ≤ 4) (l₁ l₂ : List Char)
    (hpre : l₁.take 4 = l₂.take 4) (hsuf : lastN 4 l₁ = lastN 4 l₂) :
    maskChars c l₁ = maskChars c l₂ := by
  unfold maskChars
  rw [take_of_take_four c hc l₁ l₂ hpre]
  have h : lastN c l₁ = lastN c l₂ := by
    rw [← lastN_lastN c 4 hc l₁, hsuf, lastN_lastN c 4 hc]
  rw [h]

/-- Claim C9: `preview` is deterministic (equal inputs give equal outputs);
    `restricted` values collapse to the constant redaction marker revealing no
    characters of the plaintext; lower sensitivities reveal at most a bounded
    prefix and suffix: the preview depends only on the first four and last four
    characters of the plaintext. -/
theorem c9_preview_masking (p q : String) (s : Sensitivity)
    (hs : s ≠ Sensitivity.restricted)
    (hpre : p.data.take 4 = q.data.take 4)
    (hsuf : lastN 4 p.data = lastN 4 q.data) :
    (∀ p₁ p₂ s₁ s₂, p₁ = p₂ → s₁ = s₂ → preview p₁ s₁ = preview p₂ s₂)
    ∧ (∀ r, preview r Sensitivity.restricted = "[REDACTED]")
    ∧ preview p s = preview q s := by
  refine ⟨fun p₁ p₂ s₁ s₂ h₁ h₂ => by rw [h₁, h₂], fun r => rfl, ?_⟩
  cases s with
  | restricted => exact absurd rfl hs
  | public =>
    exact congrArg String.mk
      (maskChars_depends_on_ends 4 (by omega) _ _ hpre hsuf)
  | internal =>
    exact congrArg String.mk
      (maskChars_depends_on_ends 4 (by omega) _ _ hpre hsuf)
  | confidential =>
    exact congrArg String.mk
      (maskChars_depends_on_ends 2 (by omega) _ _ hpre hsuf)

/-- Concrete instance of C9: two plaintexts sharing first and last four
    characters get identical confidential previews. -/
theorem c9_preview_masking_witness :
    preview "abcd1111efgh" Sensitivity.confidential
      = preview "abcd2222efgh" Sensitivity.confidential :=
  (c9_preview_masking "abcd1111efgh" "abcd2222efgh" Sensitivity.confidential
    (by decide) (by decide) (by decide)).2.2

/-- Status label for a key row, embedded from `getStatusText` in
    `src/frontend/src/pages/ExternalServiceKeys.tsx` (lines 218-222) and the
    textually identical function in `APIKeys.tsx` (lines 124-128). -/
def getStatusText (isActive : Bool) (expiresAt : Option ℚ) (now : ℚ) : String :=
  if !isActive then "Inactive"
  else
    match expiresAt with
    | some e => if e < now then "Expired" else "Active"
    | none => "Active"

/-- Status chip colour, embedded from `getStatusColor` in the same two pages. -/
def getStatusColor (isActive : Bool) (expiresAt : Option ℚ) (now : ℚ) : String :=
  if !isActive then "error"
  else
    match expiresAt with
    | some e => if e < now then "warning" else "success"
    | none => "success"

/-- Claim C10: deactivation takes precedence over expiry in the reported
    status: an inactive key is reported Inactive (error colour) even when its
    expiry is in the past; Expired (warning colour) is reported exactly for
    active keys with a past `expires_at`; every other key is reported Active. -/
theorem c10_status_precedence (a : Bool) (e : Option ℚ) (now : ℚ) :
    (a = false → getStatusText a e now = "Inactive"
      ∧ getStatusColor a e now = "error")
    ∧ (∀ x, a = true → e = some x → x < now →
        getStatusText a e now = "Expired" ∧ getStatusColor a e now = "warning")
    ∧ (a = true → e = none →
        getStatusText a e now = "Active" ∧ getStatusColor a e now = "success")
    ∧ (∀ x, a = true → e = some x → ¬ x < now →
        getStatusText a e now = "Active" ∧ getStatusColor a e now = "success") := by
  refine ⟨fun ha => ?_, fun x ha he hx => ?_, fun ha he => ?_, fun x ha he hx => ?_⟩
  · subst ha; exact ⟨rfl, rfl⟩
  · subst ha; subst he
    simp only [getStatusText, getStatusColor, Bool.not_true, if_pos hx]
    exact ⟨rfl, rfl⟩
  · subst ha; subst he; exact ⟨rfl, rfl⟩
  · subst ha; subst he
    simp only [getStatusText, getStatusColor, Bool.not_true, if_neg hx]
    exact ⟨rfl, rfl⟩

/-- Concrete instance of C10: a deactivated key whose expiry is already in the
    past is still reported Inactive with the error colour. -/
theorem c10_status_precedence_witness :
    getStatusText false (some 1) 3 = "Inactive"
      ∧ getStatusColor false (some 1) 3 = "error" :=
  (c10_status_precedence false (some 1) 3).1 rfl

/-- Token bucket for one `(integrationId, plan)` pair (spec section 4.4):
    capacity, continuous refill rate, current tokens, last refill instant. -/
structure RateBucket where
  capacity : ℚ
  refillRate : ℚ
  tokens : ℚ
  lastRefillAt : ℚ
  deriving DecidableEq

/-- Outcome of an `acquire` call: permission, or a denial carrying the seconds
    until at least one token is available. -/
inductive AcquireResult
  | Allowed
  | Denied (retryAfter : ℚ)
  deriving DecidableEq

/-- Modelled from the spec: continuous refill of the Rate Limiter (spec 4.4):
    tokens = min(capacity, tokens + elapsed_seconds * refillRate). -/
def refill (b : RateBucket) (now : ℚ) : RateBucket :=
  { b with
    tokens := min b.capacity (b.tokens + (now - b.lastRefillAt) * b.refillRate)
    lastRefillAt := now }

/-- Modelled from the spec: `acquire(bucketKey, cost)` of the Rate Limiter
    (spec 4.4): refill, then a single atomic check-and-decrement; on denial the
    retry delay is computed from the deficit and the refill rate. -/
def acquire (b : RateBucket) (now : ℚ) (cost : ℚ) : AcquireResult × RateBucket :=
  let b := refill b now
  if cost ≤ b.tokens then
    (.Allowed, { b with tokens := b.tokens - cost })
  else
    (.Denied ((cost - b.tokens) / b.refillRate), b)

/-- Run `n` sequential `acquire(cost=1)` calls at instant `now`, counting the
    Allowed and Denied results and returning the final bucket. -/
def runAcquires (b : RateBucket) (now : ℚ) : Nat → Nat × Nat × RateBucket
  | 0 => (0, 0, b)
  | n + 1 =>
    let p := acquire b now 1
    let r := runAcquires p.2 now n
    match p.1 with
    | .Allowed => (r.1 + 1, r.2.1, r.2.2)
    | .Denied _ => (r.1, r.2.1 + 1, r.2.2)

/-- The bucket of claim C2: capacity 100, refill rate 10 tokens per second,
    initially full. -/
def bucket100 : RateBucket :=
  { capacity := 100, refillRate := 10, tokens := 100, lastRefillAt := 0 }

theorem refill_steady (c rate t now : ℚ) (h : t ≤ c) :
    refill ⟨c, rate, t, now⟩ now = ⟨c, rate, t, now⟩ := by
  simp [refill, min_eq_right h]

theorem runAcquires_succ (b : RateBucket) (now : ℚ) (n : Nat) :
    runAcquires b now (n + 1)
      = (let p := acquire b now 1
         let r := runAcquires p.2 now n
         match p.1 with
         | .Allowed => (r.1 + 1, r.2.1, r.2.2)
         | .Denied _ => (r.1, r.2.1 + 1, r.2.2)) := rfl

/-- Acquiring at a steady instant (no elapsed time) from a bucket holding an
    integral number of tokens grants exactly `min n k` of `n` requests. -/
theorem runAcquires_steady (c now rate : ℚ) (k n : Nat)
    (hkc : (k : ℚ) ≤ c) :
    runAcquires ⟨c, rate, (k : ℚ), now⟩ now n
      = (min n k, n - min n k, ⟨c, rate, ((k - min n k : Nat) : ℚ), now⟩) := by
  induction n generalizing k with
  | zero =>
    show (0, 0, _) = _
    simp
  | succ n ih =>
    rw [runAcquires_succ]
    cases k with
    | zero =>
      have hden : acquire ⟨c, rate, ((0 : Nat) : ℚ), now⟩ now 1
          = (.Denied ((1 - 0) / rate), ⟨c, rate, ((0 : Nat) : ℚ), now⟩) := by
        simp only [acquire, refill_steady c rate _ now hkc]
        norm_num
      rw [hden]
      simp only [ih 0 hkc]
      simp
    | succ j =>
      have hone : (1 : ℚ) ≤ ((j + 1 : Nat) : ℚ) := by
        push_cast
        linarith [Nat.cast_nonneg (α := ℚ) j]
      have hsub : ((j + 1 : Nat) : ℚ) - 1 = ((j : Nat) : ℚ) := by
        push_cast
        ring
      have hall : acquire ⟨c, rate, ((j + 1 : Nat) : ℚ), now⟩ now 1
          = (.Allowed, ⟨c, rate, ((j : Nat) : ℚ), now⟩) := by
        simp only [acquire, refill_steady c rate _ now hkc]
        rw [if_pos hone, hsub]
      have hjc : ((j : Nat) : ℚ) ≤ c := by
        refine le_trans ?_ hkc
        push_cast
        linarith
      rw [hall]
      simp only [ih j hjc]
      have h₁ : min (n + 1) (j + 1) = min n j + 1 := by omega
      rw [h₁]
      have h₂ : n + 1 - (min n j + 1) = n - min n j := by omega
      have h₃ : j + 1 - (min n j + 1) = j - min n j := by omega
      rw [h₂, h₃]

theorem burst150 :
    runAcquires bucket100 0 150 = (100, 50, ⟨100, 10, ((0 : Nat) : ℚ), 0⟩) := by
  have h : bucket100 = ⟨100, 10, ((100 : Nat) : ℚ), 0⟩ := by
    simp [bucket100]
  rw [h, runAcquires_steady 100 0 10 100 150 (by norm_num)]
  norm_num

theorem after5s :
    runAcquires ⟨100, 10, ((0 : Nat) : ℚ), 0⟩ 5 50
      = (50, 0, ⟨100, 10, ((0 : Nat) : ℚ), 5⟩) := by
  have hstep : acquire ⟨100, 10, ((0 : Nat) : ℚ), 0⟩ 5 1
      = (.Allowed, ⟨100, 10, ((49 : Nat) : ℚ), 5⟩) := by
    simp only [acquire, refill]
    norm_num
  show runAcquires _ 5 (49 + 1) = _
  rw [runAcquires_succ, hstep]
  simp only [runAcquires_steady 100 5 10 49 49 (by norm_num)]
  norm_num

/-- Claim C2: with capacity 100 and refill 10/s (refill following
    tokens = min(capacity, tokens + elapsed * refillRate)), 150 sequential
    `acquire(cost=1)` calls within one second (modelled at a single instant)
    yield exactly 100 Allowed and 50 Denied; 50 further calls issued 5 seconds
    later all yield Allowed. -/
theorem c2_rate_limiter :
    (runAcquires bucket100 0 150).1 = 100
    ∧ (runAcquires bucket100 0 150).2.1 = 50
    ∧ (runAcquires (runAcquires bucket100 0 150).2.2 5 50).1 = 50
    ∧ (runAcquires (runAcquires bucket100 0 150).2.2 5 50).2.1 = 0 := by
  rw [burst150]
  rw [show ((100, 50, (⟨100, 10, ((0 : Nat) : ℚ), 0⟩ : RateBucket)) :
        Nat × Nat × RateBucket).2.2 = ⟨100, 10, ((0 : Nat) : ℚ), 0⟩ from rfl]
  rw [after5s]
  exact ⟨rfl, rfl, rfl, rfl⟩

/-- Word size modulus for 32-bit arithmetic. -/
def M32 : Nat := 4294967296

/-- Rotate a 32-bit word right by `n`, over Nat with an explicit modulus. -/
def rotr (n x : Nat) : Nat := ((x >>> n) ||| (x <<< (32 - n))) % M32

/-- The 64 SHA-256 round constants of FIPS 180-4, written in decimal. -/
def shaK : List Nat :=
  [1116352408, 1899447441, 3049323471, 3921009573, 961987163,
   1508970993, 2453635748, 2870763221, 3624381080, 310598401,
   607225278, 1426881987, 1925078388, 2162078206, 2614888103,
   3248222580, 3835390401, 4022224774, 264347078, 604807628,
   770255983, 1249150122, 1555081692, 1996064986, 2554220882,
   2821834349, 2952996808, 3210313671, 3336571891, 3584528711,
   113926993, 338241895, 666307205, 773529912, 1294757372,
   1396182291, 1695183700, 1986661051, 2177026350, 2456956037,
   2730485921, 2820302411, 3259730800, 3345764771, 3516065817,
   3600352804, 4094571909, 275423344, 430227734, 506948616,
   659060556, 883997877, 958139571, 1322822218, 1537002063,
   1747873779, 1955562222, 2024104815, 2227730452, 2361852424,
   2428436474, 2756734187, 3204031479, 3329325298]

/-- SHA-256 working state: eight 32-bit words. -/
structure Hash8 where
  a : Nat
  b : Nat
  c : Nat
  d : Nat
  e : Nat
  f : Nat
  g : Nat
  h : Nat

/-- The eight SHA-256 initial hash words, written in decimal. -/
def initH : Hash8 :=
  ⟨1779033703, 3144134277, 1013904242, 2773480762,
   1359893119, 2600822924, 528734635, 1541459225⟩

def smallSigma0 (x : Nat) : Nat := rotr 7 x ^^^ rotr 18 x ^^^ (x >>> 3)

def smallSigma1 (x : Nat) : Nat := rotr 17 x ^^^ rotr 19 x ^^^ (x >>> 10)

def bigSigma0 (x : Nat) : Nat := rotr 2 x ^^^ rotr 13 x ^^^ rotr 22 x

def bigSigma1 (x : Nat) : Nat := rotr 6 x ^^^ rotr 11 x ^^^ rotr 25 x

/-- Extend a 16-word block to the 64-word message schedule. -/
def extendW : Nat → Array Nat → Array Nat
  | 0, w => w
  | n + 1, w =>
    let i := w.size
    let nw := (w.getD (i - 16) 0 + smallSigma0 (w.getD (i - 15) 0)
               + w.getD (i - 7) 0 + smallSigma1 (w.getD (i - 2) 0)) % M32
    extendW n (w.push nw)

/-- One SHA-256 compression round. -/
def compressStep (s : Hash8) (kw : Nat × Nat) : Hash8 :=
  let ch := (s.e &&& s.f) ^^^ ((s.e ^^^ 0xffffffff) &&& s.g)
  let t1 := (s.h + bigSigma1 s.e + ch + kw.1 + kw.2) % M32
  let maj := (s.a &&& s.b) ^^^ (s.a &&& s.c) ^^^ (s.b &&& s.c)
  let t2 := (bigSigma0 s.a + maj) % M32
  ⟨(t1 + t2) % M32, s.a, s.b, s.c, (s.d + t1) % M32, s.e, s.f, s.g⟩

/-- Compress one 512-bit chunk into the running hash. -/
def compressChunk (hh : Hash8) (ws : Array Nat) : Hash8 :=
  let w := extendW 48 ws
  let s := (shaK.zip w.toList).foldl compressStep hh
  ⟨(hh.a + s.a) % M32, (hh.b + s.b) % M32, (hh.c + s.c) % M32,
   (hh.d + s.d) % M32, (hh.e + s.e) % M32, (hh.f + s.f) % M32,
   (hh.g + s.g) % M32, (hh.h + s.h) % M32⟩

/-- Big-endian byte serialisation of `v` into `n` bytes. -/
def toBytesBE : Nat → Nat → List Nat
  | 0, _ => []
  | n + 1, v => toBytesBE n (v >>> 8) ++ [v % 256]

/-- SHA-256 padding: append 0x80, zeros, then the 64-bit bit length. -/
def padMessage (msg : List Nat) : List Nat :=
  let len := msg.length
  msg ++ [0x80] ++ List.replicate ((64 - (len + 9) % 64) % 64) 0
      ++ toBytesBE 8 (8 * len)

/-- Group bytes into big-endian 32-bit words. -/
def bytesToWords : List Nat → List Nat
  | b0 :: b1 :: b2 :: b3 :: rest =>
    ((((b0 <<< 8) ||| b1) <<< 8 ||| b2) <<< 8 ||| b3) :: bytesToWords rest
  | _ => []

/-- Fold the compression function over `n` 16-word chunks. -/
def sha256Chunks : Nat → Hash8 → List Nat → Hash8
  | 0, hh, _ => hh
  | n + 1, hh, ws =>
    sha256Chunks n (compressChunk hh (Array.mk (ws.take 16))) (ws.drop 16)

/-- SHA-256 of a byte list (FIPS 180-4). -/
def sha256 (msg : List Nat) : List Nat :=
  let ws := bytesToWords (padMessage msg)
  let hh := sha256Chunks (ws.length / 16) initH ws
  toBytesBE 4 hh.a ++ toBytesBE 4 hh.b ++ toBytesBE 4 hh.c ++ toBytesBE 4 hh.d
    ++ toBytesBE 4 hh.e ++ toBytesBE 4 hh.f ++ toBytesBE 4 hh.g ++ toBytesBE 4 hh.h

/-- HMAC-SHA256 (RFC 2104), matching the `verify_webhook` reference code in
    the integration docs: `hmac.new(secret, payload, hashlib.sha256)`. -/
def hmacSha256 (key msg : List Nat) : List Nat :=
  let k0 := if 64 < key.length then sha256 key else key
  let k1 := k0 ++ List.replicate (64 - k0.length) 0
  let inner := sha256 ((k1.map (fun b => b ^^^ 0x36)) ++ msg)
  sha256 ((k1.map (fun b => b ^^^ 0x5c)) ++ inner)

/-- Lowercase hexadecimal digit. -/
def hexDigit (n : Nat) : Char := Char.ofNat (if n < 10 then 48 + n else 87 + n)

/-- Lowercase hex rendering of a byte list. -/
def hexOfBytes (bs : List Nat) : String :=
  String.mk ((bs.map (fun b => [hexDigit (b / 16), hexDigit (b % 16)])).flatten)

/-- UTF-8 bytes of an ASCII string (code points below 128). -/
def strBytes (s : String) : List Nat := s.data.map Char.toNat

/-- Modelled from the spec: the Webhook Dispatcher's delivered signature
    (spec 4.6 and the docs' `verify_webhook`): `sha256=` followed by the hex
    HMAC-SHA256 digest of the canonical payload under the webhook secret.
    The Dispatcher itself is not among the shown sources. -/
def webhookSignature (webhookSecret canonicalPayload : String) : String :=
  "sha256=" ++ hexOfBytes (hmacSha256 (strBytes webhookSecret) (strBytes canonicalPayload))

set_option maxRecDepth 10000 in
/-- Claim C4: every delivered webhook signature is `sha256=` followed by the
    lowercase hex HMAC-SHA256 digest of the canonical payload under the
    integration's webhook secret, and for the payload consisting of the JSON
    object with single field event = user.created under secret s3cr3t the
    signature is reproducible byte-for-byte. -/
theorem c4_webhook_signature :
    (∀ secret payload, webhookSignature secret payload
        = "sha256=" ++ hexOfBytes (hmacSha256 (strBytes secret) (strBytes payload)))
    ∧ webhookSignature "s3cr3t" "\x7b\"event\":\"user.created\"\x7d"
        = "sha256=f966533412449e12c65ed197b487fb660d919cb24f27269bab2655b4289796dc" :=
  ⟨fun _ _ => rfl, by decide⟩

/-- Errors of the Secret Store (spec 4.1). -/
inductive SecretErr
  | SecretNotFound
  | DecryptionFailed
  deriving DecidableEq

/-- Modelled from the spec: the Secret Store (spec 4.1), which is not among
    the shown sources.  Encryption at rest is abstracted to an opaque
    reference table: `encrypt` yields a fresh opaque handle, `decrypt`
    resolves a handle, `discard` invalidates one.  The cryptographic
    transform itself is irrelevant to the claims settled here. -/
structure SecretStore where
  secrets : List (Nat × String)
  nextRef : Nat

def lookupSecret : List (Nat × String) → Nat → Option String
  | [], _ => none
  | e :: rest, r => if e.1 = r then some e.2 else lookupSecret rest r

def SecretStore.decrypt (st : SecretStore) (r : Nat) : Except SecretErr String :=
  match lookupSecret st.secrets r with
  | some p => .ok p
  | none => .error .SecretNotFound

def SecretStore.encrypt (st : SecretStore) (p : String) : Nat × SecretStore :=
  (st.nextRef, ⟨(st.nextRef, p) :: st.secrets, st.nextRef + 1⟩)

/-- Remove every entry bound to the given reference. -/
def removeRef : List (Nat × String) → Nat → List (Nat × String)
  | [], _ => []
  | e :: rest, r => if e.1 = r then removeRef rest r else e :: removeRef rest r

def SecretStore.discard (st : SecretStore) (r : Nat) : SecretStore :=
  ⟨removeRef st.secrets r, st.nextRef⟩

/-- Key type of an external service key (TS interface and spec section 3). -/
inductive KeyType
  | api_key
  | bearer_token
  | basic_auth
  | custom
  deriving DecidableEq

/-- Transport location where the credential is injected (spec section 3). -/
inductive UsageContext
  | header
  | query_param
  | body
  deriving DecidableEq

/-- Why a key lookup failed (spec 4.3 failure policy distinguishes expired
    from explicitly deactivated). -/
inductive UnavailableReason
  | unknown
  | deactivated
  | expired
  deriving DecidableEq

/-- Vault error taxonomy (spec section 7). -/
inductive VaultErr
  | InvalidKeySpec
  | KeyUnavailable (reason : UnavailableReason)
  deriving DecidableEq

/-- Modelled from the spec: the stored `ExternalServiceKey` record (spec
    section 3; the TS interface in `ExternalServiceKeys.tsx` lines 50-68 shows
    the caller-visible shape).  `keyPre` models the source's credential value
    prefix field (e.g. "Bearer"). -/
structure ExternalServiceKey where
  id : Nat
  name : String
  serviceName : String
  keyType : KeyType
  secretRef : Nat
  usageContext : UsageContext
  headerName : Option String
  queryParamName : Option String
  keyPre : Option String
  sensitivity : Sensitivity
  isActive : Bool
  expiresAt : Option ℚ
  lastUsedAt : Option ℚ
  usageCount : Nat
  ownerProjectId : Option Nat

/-- Registration request: what a caller supplies to `registerKey`, including
    the raw secret. -/
structure KeySpec where
  name : String
  serviceName : String
  keyType : KeyType
  secret : String
  usageContext : UsageContext
  headerName : Option String
  queryParamName : Option String
  keyPre : Option String
  sensitivity : Sensitivity
  expiresAt : Option ℚ
  ownerProjectId : Option Nat

/-- Caller-visible record returned by the Vault: the `secretRef` is stripped
    (the type has no such field) and replaced by the masked `key_preview`,
    mirroring the TS interface in `ExternalServiceKeys.tsx`. -/
structure KeyView where
  id : Nat
  name : String
  serviceName : String
  keyType : KeyType
  key_preview : String
  usageContext : UsageContext
  headerName : Option String
  queryParamName : Option String
  keyPre : Option String
  isActive : Bool
  expiresAt : Option ℚ
  usageCount : Nat

/-- Modelled from the spec: `registerKey`'s validation (spec 4.3): exactly one
    of `headerName`/`queryParamName` is set, and the set one accords with
    `usageContext`. -/
def validSpec (s : KeySpec) : Bool :=
  (s.headerName.isSome == decide (s.usageContext = UsageContext.header))
  && (s.queryParamName.isSome == decide (s.usageContext = UsageContext.query_param))
  && (s.headerName.isSome == !s.queryParamName.isSome)

/-- Full system state of the Vault and Proxy: key records, secret store, the
    rate bucket for the owning integration, a network call counter, the log
    stream, and the id counter. -/
structure SysState where
  keys : List ExternalServiceKey
  store : SecretStore
  bucket : RateBucket
  networkCalls : Nat
  logs : List String
  nextKeyId : Nat

/-- Project a stored record to the caller-visible view, replacing the secret
    handle by the masked preview of the given plaintext. -/
def toView (k : ExternalServiceKey) (plain : String) : KeyView :=
  { id := k.id, name := k.name, serviceName := k.serviceName,
    keyType := k.keyType, key_preview := preview plain k.sensitivity,
    usageContext := k.usageContext, headerName := k.headerName,
    queryParamName := k.queryParamName, keyPre := k.keyPre,
    isActive := k.isActive, expiresAt := k.expiresAt,
    usageCount := k.usageCount }

/-- Modelled from the spec: `registerKey(spec)` (spec 4.3): validate, store
    the secret via the Secret Store, return the record with the secret handle
    stripped and a masked preview in its place. -/
def registerKey (st : SysState) (s : KeySpec) : Except VaultErr KeyView × SysState :=
  if validSpec s then
    let r := st.store.encrypt s.secret
    let k : ExternalServiceKey :=
      { id := st.nextKeyId, name := s.name, serviceName := s.serviceName,
        keyType := s.keyType, secretRef := r.1, usageContext := s.usageContext,
        headerName := s.headerName, queryParamName := s.queryParamName,
        keyPre := s.keyPre, sensitivity := s.sensitivity, isActive := true,
        expiresAt := s.expiresAt, lastUsedAt := none, usageCount := 0,
        ownerProjectId := s.ownerProjectId }
    (.ok (toView k s.secret),
     { st with keys := k :: st.keys, store := r.2, nextKeyId := st.nextKeyId + 1 })
  else
    (.error .InvalidKeySpec, st)

/-- A successful registration's view carries the masked preview of the
    supplied secret. -/
theorem registerKey_ok_preview (st : SysState) (s : KeySpec) (v : KeyView)
    (hv : (registerKey st s).1 = .ok v) :
    v.key_preview = preview s.secret s.sensitivity := by
  cases h : validSpec s with
  | true =>
    simp only [registerKey, if_pos h] at hv
    injection hv with hv
    rw [← hv]
    rfl
  | false => simp [registerKey, h] at hv

/-- The validation flag holds exactly when the propositional matching
    condition of the spec holds. -/
theorem validSpec_iff (s : KeySpec) :
    validSpec s = true
      ↔ ((s.headerName.isSome = true ↔ s.usageContext = UsageContext.header)
         ∧ (s.queryParamName.isSome = true ↔ s.usageContext = UsageContext.query_param)
         ∧ s.headerName.isSome ≠ s.queryParamName.isSome) := by
  simp only [validSpec, Bool.and_eq_true, beq_iff_eq]
  constructor
  · rintro ⟨⟨h₁, h₂⟩, h₃⟩
    refine ⟨?_, ?_, ?_⟩
    · rw [h₁]; exact ⟨fun hd => of_decide_eq_true hd, fun hd => decide_eq_true hd⟩
    · rw [h₂]; exact ⟨fun hd => of_decide_eq_true hd, fun hd => decide_eq_true hd⟩
    · rw [h₃]; exact Bool.not_ne_self _
  · rintro ⟨h₁, h₂, h₃⟩
    refine ⟨⟨?_, ?_⟩, ?_⟩
    · by_cases hc : s.usageContext = UsageContext.header
      · simp [hc, h₁.mpr hc]
      · have hn : s.headerName.isSome ≠ true := fun habs => hc (h₁.mp habs)
        simp only [Bool.not_eq_true] at hn
        simp [hc, hn]
    · by_cases hc : s.usageContext = UsageContext.query_param
      · simp [hc, h₂.mpr hc]
      · have hn : s.queryParamName.isSome ≠ true := fun habs => hc (h₂.mp habs)
        simp only [Bool.not_eq_true] at hn
        simp [hc, hn]
    · cases hh : s.headerName.isSome with
      | true =>
        cases hq : s.queryParamName.isSome with
        | true => exact absurd (hh.trans hq.symm) h₃
        | false => simp
      | false =>
        cases hq : s.queryParamName.isSome with
        | true => simp
        | false => exact absurd (hh.trans hq.symm) h₃

/-- Claim C5: `registerKey` succeeds exactly when one of
    `headerName`/`queryParamName` is set and matches the usage context
    (headerName set iff the context is header, queryParamName set iff the
    context is query_param, and exactly one of the two is set), failing with
    `InvalidKeySpec` otherwise; a successful result carries the masked
    preview in place of the secret handle (the returned `KeyView` type has no
    `secretRef` field). -/
theorem c5_register_key_validation (st : SysState) (s : KeySpec) :
    ((∃ v, (registerKey st s).1 = .ok v)
      ↔ ((s.headerName.isSome = true ↔ s.usageContext = UsageContext.header)
         ∧ (s.queryParamName.isSome = true ↔ s.usageContext = UsageContext.query_param)
         ∧ s.headerName.isSome ≠ s.queryParamName.isSome))
    ∧ (validSpec s = false → (registerKey st s).1 = .error .InvalidKeySpec)
    ∧ (∀ v, (registerKey st s).1 = .ok v →
        v.key_preview = preview s.secret s.sensitivity) := by
  refine ⟨?_, ?_, ?_⟩
  · rw [← validSpec_iff]
    constructor
    · rintro ⟨v, hv⟩
      cases h : validSpec s with
      | true => rfl
      | false => simp [registerKey, h] at hv
    · intro h
      simp only [registerKey, if_pos h]
      exact ⟨_, rfl⟩
  · intro h
    simp [registerKey, h]
  · exact fun v hv => registerKey_ok_preview st s v hv

/-- An empty secret store. -/
def emptyStore : SecretStore := ⟨[], 0⟩

/-- A minimal concrete system state for witnesses. -/
def st0 : SysState :=
  { keys := [], store := emptyStore, bucket := bucket100,
    networkCalls := 0, logs := [], nextKeyId := 0 }

/-- A key spec whose header context is not matched by a header name. -/
def specBad : KeySpec :=
  { name := "k", serviceName := "svc", keyType := .api_key, secret := "sk-123",
    usageContext := .header, headerName := none, queryParamName := none,
    keyPre := none, sensitivity := .confidential, expiresAt := none,
    ownerProjectId := none }

/-- Concrete instance of C5: registering a header-context key without a header
    name fails with `InvalidKeySpec`. -/
theorem c5_register_key_validation_witness :
    (registerKey st0 specBad).1 = .error .InvalidKeySpec :=
  (c5_register_key_validation st0 specBad).2.1 (by decide)

/-- Every stored reference is below the freshness counter. -/
def StoreWF (s : SecretStore) : Prop :=
  ∀ e ∈ s.secrets, e.1 < s.nextRef

theorem lookupSecret_mem (l : List (Nat × String)) (r : Nat) (p : String)
    (h : lookupSecret l r = some p) : (r, p) ∈ l := by
  induction l with
  | nil => simp [lookupSecret] at h
  | cons e rest ih =>
    simp only [lookupSecret] at h
    by_cases he : e.1 = r
    · rw [if_pos he] at h
      injection h with h
      have he₂ : e = (r, p) := by
        cases e
        simp only [Prod.mk.injEq]
        exact ⟨he, h⟩
      rw [← he₂]
      exact List.mem_cons_self e rest
    · rw [if_neg he] at h
      exact List.mem_cons_of_mem e (ih h)

theorem lookupSecret_removeRef_self (l : List (Nat × String)) (r : Nat) :
    lookupSecret (removeRef l r) r = none := by
  induction l with
  | nil => rfl
  | cons e rest ih =>
    simp only [removeRef]
    by_cases he : e.1 = r
    · rw [if_pos he]
      exact ih
    · rw [if_neg he]
      simp only [lookupSecret, if_neg he]
      exact ih

theorem lookupSecret_removeRef_other (l : List (Nat × String)) (r r₂ : Nat)
    (hne : r₂ ≠ r) :
    lookupSecret (removeRef l r) r₂ = lookupSecret l r₂ := by
  induction l with
  | nil => rfl
  | cons e rest ih =>
    simp only [removeRef]
    by_cases he : e.1 = r
    · have hne₂ : ¬ e.1 = r₂ := by rw [he]; exact fun hr => hne hr.symm
      rw [if_pos he]
      simp only [lookupSecret, if_neg hne₂]
      exact ih
    · rw [if_neg he]
      simp only [lookupSecret]
      by_cases he₂ : e.1 = r₂
      · rw [if_pos he₂, if_pos he₂]
      · rw [if_neg he₂, if_neg he₂]
        exact ih

/-- Look up a key record by id, as the Vault does. -/
def findKeyIn : List ExternalServiceKey → Nat → Option ExternalServiceKey
  | [], _ => none
  | k :: rest, kid => if k.id = kid then some k else findKeyIn rest kid

def findKey (st : SysState) (kid : Nat) : Option ExternalServiceKey :=
  findKeyIn st.keys kid

/-- Re-point the record with the given id at a new secret reference. -/
def updateKeyRef (keys : List ExternalServiceKey) (kid newRef : Nat) :
    List ExternalServiceKey :=
  keys.map (fun k => if k.id = kid then { k with secretRef := newRef } else k)

theorem findKeyIn_updateKeyRef (keys : List ExternalServiceKey) (kid newRef : Nat) :
    findKeyIn (updateKeyRef keys kid newRef) kid
      = (findKeyIn keys kid).map (fun k => { k with secretRef := newRef }) := by
  induction keys with
  | nil => rfl
  | cons k rest ih =>
    simp only [updateKeyRef, List.map_cons] at ih ⊢
    by_cases hk : k.id = kid
    · rw [if_pos hk]
      simp [findKeyIn, hk]
    · rw [if_neg hk]
      simp only [findKeyIn, if_neg hk]
      exact ih

/-- Modelled from the spec: step 1 of `rotateKey` — store the new secret
    durably, yielding its fresh reference. -/
def rotateStored (st : SysState) (newSecret : String) : Nat × SysState :=
  let r := st.store.encrypt newSecret
  (r.1, { st with store := r.2 })

/-- Modelled from the spec: step 2 of `rotateKey` — re-point the key record
    at the new reference (id preserved). -/
def rotateRepointed (st : SysState) (kid newRef : Nat) : SysState :=
  { st with keys := updateKeyRef st.keys kid newRef }

/-- Modelled from the spec: step 3 of `rotateKey` — only now discard the old
    secret handle. -/
def rotateDiscarded (st : SysState) (oldRef : Nat) : SysState :=
  { st with store := st.store.discard oldRef }

/-- Modelled from the spec: `rotateKey(id, newSecret)` (spec 4.3), composed of
    the three steps in order: store new, re-point, discard old. -/
def rotateKey (st : SysState) (kid : Nat) (newSecret : String) :
    Except VaultErr Unit × SysState :=
  match findKey st kid with
  | none => (.error (.KeyUnavailable .unknown), st)
  | some k =>
    let r := rotateStored st newSecret
    let st₂ := rotateRepointed r.2 kid r.1
    let st₃ := rotateDiscarded st₂ k.secretRef
    (.ok (), st₃)

/-- Claim C6: `rotateKey` discards the old secret handle only after the new
    secret is durably stored — after step 1 both the old and the new reference
    decrypt successfully, and after step 2 the key's new reference still
    decrypts, so at no intermediate state is neither secret valid — the key's
    id is preserved (the repointed record differs only in `secretRef`), and
    once `rotateKey` completes, decrypting the old reference fails with
    `SecretNotFound` while the new reference yields the new secret. -/
theorem c6_rotate_key (st : SysState) (kid : Nat) (newSecret oldPlain : String)
    (k : ExternalServiceKey)
    (hfind : findKey st kid = some k)
    (hwf : StoreWF st.store)
    (hold : st.store.decrypt k.secretRef = .ok oldPlain) :
    ((rotateStored st newSecret).2.store.decrypt k.secretRef = .ok oldPlain
      ∧ (rotateStored st newSecret).2.store.decrypt (rotateStored st newSecret).1
          = .ok newSecret)
    ∧ (rotateRepointed (rotateStored st newSecret).2 kid
        (rotateStored st newSecret).1).store.decrypt (rotateStored st newSecret).1
          = .ok newSecret
    ∧ (rotateKey st kid newSecret).1 = .ok ()
    ∧ (rotateKey st kid newSecret).2.store.decrypt st.store.nextRef = .ok newSecret
    ∧ (rotateKey st kid newSecret).2.store.decrypt k.secretRef
        = .error .SecretNotFound
    ∧ findKey (rotateKey st kid newSecret).2 kid
        = some { k with secretRef := st.store.nextRef } := by
  have hlook : lookupSecret st.store.secrets k.secretRef = some oldPlain := by
    simp only [SecretStore.decrypt] at hold
    cases hl : lookupSecret st.store.secrets k.secretRef with
    | none => rw [hl] at hold; exact absurd hold (by simp)
    | some p =>
      rw [hl] at hold
      injection hold with h
      rw [h]
  have hmem := lookupSecret_mem _ _ _ hlook
  have hlt : k.secretRef < st.store.nextRef := hwf _ hmem
  have hne : ¬ st.store.nextRef = k.secretRef := by omega
  have hstep1 : (rotateStored st newSecret).2.store
      = ⟨(st.store.nextRef, newSecret) :: st.store.secrets, st.store.nextRef + 1⟩ := rfl
  have hfst : (rotateStored st newSecret).1 = st.store.nextRef := rfl
  have hrk : rotateKey st kid newSecret
      = (.ok (), rotateDiscarded
          (rotateRepointed (rotateStored st newSecret).2 kid (rotateStored st newSecret).1)
          k.secretRef) := by
    simp only [rotateKey, hfind]
  refine ⟨⟨?_, ?_⟩, ?_, ?_, ?_, ?_, ?_⟩
  · rw [hstep1]
    simp only [SecretStore.decrypt, lookupSecret, if_neg hne, hlook]
  · rw [hstep1, hfst]
    simp [SecretStore.decrypt, lookupSecret]
  · rw [hfst]
    show (rotateStored st newSecret).2.store.decrypt st.store.nextRef = .ok newSecret
    rw [hstep1]
    simp [SecretStore.decrypt, lookupSecret]
  · rw [hrk]
  · rw [hrk]
    show (SecretStore.discard _ k.secretRef).decrypt st.store.nextRef = .ok newSecret
    rw [show (rotateRepointed (rotateStored st newSecret).2 kid
      (rotateStored st newSecret).1).store = (rotateStored st newSecret).2.store
      from rfl]
    rw [hstep1]
    simp only [SecretStore.discard, SecretStore.decrypt, removeRef, if_neg hne,
      lookupSecret]
    simp
  · rw [hrk]
    show (SecretStore.discard _ k.secretRef).decrypt k.secretRef
        = .error .SecretNotFound
    rw [show (rotateRepointed (rotateStored st newSecret).2 kid
      (rotateStored st newSecret).1).store = (rotateStored st newSecret).2.store
      from rfl]
    rw [hstep1]
    simp only [SecretStore.discard, SecretStore.decrypt, removeRef, if_neg hne,
      lookupSecret, if_neg hne, lookupSecret_removeRef_self]
  · rw [hrk]
    show findKeyIn (updateKeyRef st.keys kid st.store.nextRef) kid = _
    rw [findKeyIn_updateKeyRef]
    have hf : findKeyIn st.keys kid = some k := hfind
    rw [hf]
    rfl

/-- A concrete key whose secret is stored at reference 0. -/
def keyRot : ExternalServiceKey :=
  { id := 7, name := "k", serviceName := "svc", keyType := .api_key,
    secretRef := 0, usageContext := .header, headerName := some "X-API-Key",
    queryParamName := none, keyPre := none, sensitivity := .confidential,
    isActive := true, expiresAt := none, lastUsedAt := none, usageCount := 3,
    ownerProjectId := none }

/-- A concrete state holding `keyRot` and its stored secret. -/
def stRot : SysState :=
  { keys := [keyRot], store := ⟨[(0, "old-secret")], 1⟩, bucket := bucket100,
    networkCalls := 0, logs := [], nextKeyId := 8 }

/-- Concrete instance of C6: after rotating `keyRot`, the old reference fails
    with `SecretNotFound` and the new reference decrypts to the new secret. -/
theorem c6_rotate_key_witness :
    (rotateKey stRot 7 "new-secret").2.store.decrypt 0 = .error .SecretNotFound
    ∧ (rotateKey stRot 7 "new-secret").2.store.decrypt 1 = .ok "new-secret" := by
  have h := c6_rotate_key stRot 7 "new-secret" "old-secret" keyRot rfl
    (by intro e he; simp only [stRot] at he; simp at he; subst he; decide) rfl
  exact ⟨h.2.2.2.2.1, h.2.2.2.1⟩

/-- Caller-supplied request template for `testKey`/`execute`. -/
structure RequestSpec where
  endpoint : String
  method : String
  headers : List (String × String)
  queryParams : List (String × String)
  payload : Option String

/-- The outbound HTTP request actually sent, after credential injection. -/
structure OutboundRequest where
  endpoint : String
  method : String
  headers : List (String × String)
  queryParams : List (String × String)
  payload : Option String

/-- What the external service answers. -/
structure EnvResponse where
  statusCode : Nat
  latency : ℚ
  respData : String

/-- Error classes of a proxied call (spec 4.5 step g). -/
inductive ErrClass
  | Network
  | Timeout
  | ClientError (code : Nat)
  | ServerError (code : Nat)
  deriving DecidableEq

/-- Proxy error taxonomy (spec section 7).  None of the constructors can
    carry secret material. -/
inductive ProxyErr
  | KeyUnavailable (reason : UnavailableReason)
  | RateLimited (retryAfter : ℚ)
  | SecretNotFound
  | DecryptionFailed
  | callFailed (e : ErrClass)
  deriving DecidableEq

/-- Successful proxy outcome returned to the caller. -/
structure ProxyResult where
  success : Bool
  statusCode : Nat
  latency : ℚ
  deriving DecidableEq

/-- The credential rendered for transport, with the optional value prefix. -/
def credentialValue (k : ExternalServiceKey) (plain : String) : String :=
  match k.keyPre with
  | some pre => pre ++ " " ++ plain
  | none => plain

/-- Modelled from the spec: credential placement by usage context (spec 4.5
    step d): header, query parameter, or body. -/
def injectCredential (k : ExternalServiceKey) (plain : String) (r : RequestSpec) :
    OutboundRequest :=
  match k.usageContext with
  | .header =>
    ⟨r.endpoint, r.method,
     r.headers ++ [(k.headerName.getD "Authorization", credentialValue k plain)],
     r.queryParams, r.payload⟩
  | .query_param =>
    ⟨r.endpoint, r.method, r.headers,
     r.queryParams ++ [(k.queryParamName.getD "api_key", credentialValue k plain)],
     r.payload⟩
  | .body =>
    ⟨r.endpoint, r.method, r.headers, r.queryParams,
     some (credentialValue k plain)⟩

/-- Availability of a key record, deactivation checked before expiry as in the
    dashboard's status rendering. -/
def availability (k : ExternalServiceKey) (now : ℚ) : Option UnavailableReason :=
  if k.isActive = false then some .deactivated
  else
    match k.expiresAt with
    | some e => if e < now then some .expired else none
    | none => none

/-- Classify an HTTP status: below 400 success, 4xx client, 5xx server. -/
def classify (code : Nat) : Option ErrClass :=
  if code < 400 then none
  else if code < 500 then some (.ClientError code)
  else some (.ServerError code)

/-- Modelled from the spec: `touchUsage` (spec 4.3) — increment the usage
    counter and stamp `lastUsedAt`. -/
def touchUsage (st : SysState) (kid : Nat) (now : ℚ) : SysState :=
  { st with keys := st.keys.map (fun k =>
      if k.id = kid then { k with usageCount := k.usageCount + 1,
                                  lastUsedAt := some now }
      else k) }

/-- Modelled from the spec: the Secure Request Proxy's `execute` (spec 4.5):
    resolve and validate the key, consult the rate limiter (failing fast with
    no network call), decrypt the secret only for the single outbound call,
    inject it, execute, touch usage, classify the outcome.  The external
    service is abstracted as the function `env`; the log line records only the
    key id and status code. -/
def execute (env : OutboundRequest → EnvResponse) (now : ℚ) (st : SysState)
    (kid : Nat) (req : RequestSpec) : Except ProxyErr ProxyResult × SysState :=
  match findKey st kid with
  | none => (.error (.KeyUnavailable .unknown), st)
  | some k =>
    match availability k now with
    | some r => (.error (.KeyUnavailable r), st)
    | none =>
      match acquire st.bucket now 1 with
      | (.Denied retry, b₁) => (.error (.RateLimited retry), { st with bucket := b₁ })
      | (.Allowed, b₁) =>
        match st.store.decrypt k.secretRef with
        | .error .SecretNotFound => (.error .SecretNotFound, { st with bucket := b₁ })
        | .error .DecryptionFailed => (.error .DecryptionFailed, { st with bucket := b₁ })
        | .ok plain =>
          let resp := env (injectCredential k plain req)
          let st₁ : SysState :=
            { st with
              bucket := b₁
              networkCalls := st.networkCalls + 1
              logs := st.logs ++ ["execute key " ++ toString kid
                ++ " status " ++ toString resp.statusCode] }
          let st₂ := touchUsage st₁ kid now
          match classify resp.statusCode with
          | none => (.ok ⟨true, resp.statusCode, resp.latency⟩, st₂)
          | some e => (.error (.callFailed e), st₂)

/-- Caller-visible result of `testKey`: success flag, status, latency, and on
    failure an error class — never the secret (the type carries none). -/
structure TestResult where
  success : Bool
  statusCode : Option Nat
  latency : Option ℚ
  errorKind : Option ProxyErr
  deriving DecidableEq

/-- Modelled from the spec: `testKey(id, requestTemplate)` (spec 4.3),
    delegating to the Proxy. -/
def testKey (env : OutboundRequest → EnvResponse) (now : ℚ) (st : SysState)
    (kid : Nat) (template : RequestSpec) : TestResult × SysState :=
  match execute env now st kid template with
  | (.ok r, st₁) => (⟨true, some r.statusCode, some r.latency, none⟩, st₁)
  | (.error e, st₁) => (⟨false, none, none, some e⟩, st₁)

/-- Claim C3: `execute` (and `testKey`) on a deactivated or expired key fails
    with `KeyUnavailable`, the state — including the network call counter — is
    unchanged (no outbound call is attempted), and the carried reason
    distinguishes explicit deactivation from expiry, deactivation taking
    precedence. -/
theorem c3_unavailable_no_network (env : OutboundRequest → EnvResponse) (now : ℚ)
    (st : SysState) (kid : Nat) (req : RequestSpec) (k : ExternalServiceKey)
    (hfind : findKey st kid = some k)
    (hbad : k.isActive = false ∨ (∃ e, k.expiresAt = some e ∧ e < now)) :
    (execute env now st kid req).1
        = .error (.KeyUnavailable
            (if k.isActive = false then .deactivated else .expired))
    ∧ (execute env now st kid req).2 = st
    ∧ (execute env now st kid req).2.networkCalls = st.networkCalls
    ∧ (testKey env now st kid req).1
        = ⟨false, none, none, some (.KeyUnavailable
            (if k.isActive = false then .deactivated else .expired))⟩
    ∧ UnavailableReason.deactivated ≠ UnavailableReason.expired := by
  have havail : availability k now
      = some (if k.isActive = false then .deactivated else .expired) := by
    by_cases ha : k.isActive = false
    · simp [availability, ha]
    · have ha₂ : k.isActive = true := by
        cases h : k.isActive
        · exact absurd h ha
        · rfl
      rcases hbad with hb | ⟨e, he, hlt⟩
      · exact absurd hb ha
      · simp [availability, ha₂, he, hlt]
  have hex : execute env now st kid req
      = (.error (.KeyUnavailable
          (if k.isActive = false then .deactivated else .expired)), st) := by
    simp only [execute, hfind, havail]
  refine ⟨by rw [hex], by rw [hex], by rw [hex], ?_, by decide⟩
  simp only [testKey, hex]

/-- A constant benign external service for witnesses. -/
def wEnv : OutboundRequest → EnvResponse := fun _ => ⟨200, 1, "ok"⟩

/-- A concrete request template for witnesses. -/
def wReq : RequestSpec := ⟨"https://api.example.com/test", "GET", [], [], none⟩

/-- A key that is both deactivated and expired. -/
def keyDeact : ExternalServiceKey :=
  { keyRot with id := 9, isActive := false, expiresAt := some (-1) }

/-- A state holding only the deactivated key. -/
def stDeact : SysState := { st0 with keys := [keyDeact] }

/-- Concrete instance of C3: executing against the deactivated (and also
    expired) key reports the deactivation reason and leaves the network call
    counter untouched. -/
theorem c3_unavailable_no_network_witness :
    (execute wEnv 0 stDeact 9 wReq).1
        = .error (.KeyUnavailable .deactivated)
    ∧ (execute wEnv 0 stDeact 9 wReq).2.networkCalls = stDeact.networkCalls := by
  have h := c3_unavailable_no_network wEnv 0 stDeact 9 wReq keyDeact rfl
    (Or.inl rfl)
  have h₁ := h.1
  rw [if_pos (show keyDeact.isActive = false from rfl)] at h₁
  exact ⟨h₁, h.2.2.1⟩

/-- The needle occurs as a contiguous substring of the haystack. -/
def occursIn (needle hay : String) : Prop :=
  ∃ a b, hay.data = a ++ needle.data ++ b

theorem occursIn_length_le (n h : String) (hocc : occursIn n h) :
    n.data.length ≤ h.data.length := by
  obtain ⟨a, b, hab⟩ := hocc
  rw [hab]
  simp only [List.length_append]
  omega

/-- A masked preview is never longer than 12 characters. -/
theorem preview_length_le (p : String) (s : Sensitivity) :
    (preview p s).data.length ≤ 12 := by
  cases s with
  | restricted =>
    show ("[REDACTED]" : String).data.length ≤ 12
    decide
  | public =>
    show (maskChars 4 p.data).length ≤ 12
    simp only [maskChars, lastN, List.length_append, List.length_take,
      List.length_drop, List.length_cons, List.length_nil]
    omega
  | internal =>
    show (maskChars 4 p.data).length ≤ 12
    simp only [maskChars, lastN, List.length_append, List.length_take,
      List.length_drop, List.length_cons, List.length_nil]
    omega
  | confidential =>
    show (maskChars 2 p.data).length ≤ 12
    simp only [maskChars, lastN, List.length_append, List.length_take,
      List.length_drop, List.length_cons, List.length_nil]
    omega

/-- The TS `ExternalServiceKey` interface of `ExternalServiceKeys.tsx`
    (lines 50-68): the record the UI receives carries the masked
    `key_preview` and no plaintext secret field at all. -/
structure UIKey where
  id : Nat
  name : String
  service_name : String
  key_type : String
  key_preview : String
  usage_context : String
  is_active : Bool
  usage_count : Nat
  expires_at : Option ℚ

/-- The strings rendered in one key table row of `ExternalServiceKeys.tsx`
    (lines 265-322): name, service, type, key preview, usage context, status
    text, usage count. -/
def uiRowCells (k : UIKey) (now : ℚ) : List String :=
  [k.name, k.service_name, k.key_type, k.key_preview, k.usage_context,
   getStatusText k.is_active k.expires_at now, toString k.usage_count]

def keyTypeName : KeyType → String
  | .api_key => "api_key"
  | .bearer_token => "bearer_token"
  | .basic_auth => "basic_auth"
  | .custom => "custom"

def usageContextName : UsageContext → String
  | .header => "header"
  | .query_param => "query_param"
  | .body => "body"

/-- Serialise a vault view into the record shape the UI receives. -/
def uiOfView (v : KeyView) : UIKey :=
  ⟨v.id, v.name, v.serviceName, keyTypeName v.keyType, v.key_preview,
   usageContextName v.usageContext, v.isActive, v.usageCount, v.expiresAt⟩

/-- The caller-visible portion of an `execute` outcome: the result, the log
    stream, and the call counter — everything an observer outside the process
    sees. -/
def callerView (r : Except ProxyErr ProxyResult × SysState) :
    Except ProxyErr ProxyResult × List String × Nat :=
  (r.1, r.2.logs, r.2.networkCalls)

theorem lookupSecret_lowEq (l₁ l₂ : List (Nat × String))
    (h : l₁.map Prod.fst = l₂.map Prod.fst) (r : Nat) :
    (lookupSecret l₁ r).isSome = (lookupSecret l₂ r).isSome := by
  induction l₁ generalizing l₂ with
  | nil =>
    cases l₂ with
    | nil => rfl
    | cons b t => simp at h
  | cons a t ih =>
    cases l₂ with
    | nil => simp at h
    | cons b t₂ =>
      simp only [List.map_cons, List.cons.injEq] at h
      obtain ⟨h1, h2⟩ := h
      simp only [lookupSecret]
      by_cases hr : a.1 = r
      · rw [if_pos hr, if_pos (h1 ▸ hr)]
        rfl
      · rw [if_neg hr, if_neg (h1 ▸ hr)]
        exact ih t₂ h2

/-- Core noninterference of `execute`: two states that agree on everything an
    observer can see — and whose secret stores bind the same references,
    possibly to different plaintexts — yield identical caller views, provided
    the external service cannot tell two injected credentials apart. -/
theorem execute_low_equiv (env : OutboundRequest → EnvResponse) (now : ℚ)
    (st₁ st₂ : SysState) (kid : Nat) (req : RequestSpec)
    (henv : ∀ k p₁ p₂ r,
      env (injectCredential k p₁ r) = env (injectCredential k p₂ r))
    (hkeys : st₁.keys = st₂.keys)
    (hbucket : st₁.bucket = st₂.bucket)
    (hcalls : st₁.networkCalls = st₂.networkCalls)
    (hlogs : st₁.logs = st₂.logs)
    (hstore : st₁.store.secrets.map Prod.fst = st₂.store.secrets.map Prod.fst) :
    callerView (execute env now st₁ kid req)
      = callerView (execute env now st₂ kid req) := by
  have hfind : findKey st₁ kid = findKey st₂ kid := by
    unfold findKey
    rw [hkeys]
  simp only [execute, hfind, hbucket]
  cases hf : findKey st₂ kid with
  | none => simp [hf, callerView, hlogs, hcalls]
  | some k =>
    cases ha : availability k now with
    | some r => simp [hf, ha, callerView, hlogs, hcalls]
    | none =>
      rcases hacq : acquire st₂.bucket now 1 with ⟨res, b₁⟩
      cases res with
      | Denied retry => simp [hf, ha, hacq, callerView, hlogs, hcalls]
      | Allowed =>
        have hdec := lookupSecret_lowEq st₁.store.secrets st₂.store.secrets
          hstore k.secretRef
        cases hd₁ : lookupSecret st₁.store.secrets k.secretRef with
        | none =>
          cases hd₂ : lookupSecret st₂.store.secrets k.secretRef with
          | none =>
            simp [hf, ha, hacq, SecretStore.decrypt, hd₁, hd₂, callerView,
              hlogs, hcalls]
          | some p₂ =>
            rw [hd₁, hd₂] at hdec
            simp at hdec
        | some p₁ =>
          cases hd₂ : lookupSecret st₂.store.secrets k.secretRef with
          | none =>
            rw [hd₁, hd₂] at hdec
            simp at hdec
          | some p₂ =>
            have henv₂ := henv k p₁ p₂ req
            cases hc : classify (env (injectCredential k p₂ req)).statusCode with
            | none =>
              simp [hf, ha, hacq, SecretStore.decrypt, hd₁, hd₂, henv₂, hc,
                callerView, touchUsage, hlogs, hcalls]
            | some e =>
              simp [hf, ha, hacq, SecretStore.decrypt, hd₁, hd₂, henv₂, hc,
                callerView, touchUsage, hlogs, hcalls]

/-- Claim C1: no caller-visible output depends on a stored secret's
    plaintext.  Replacing the plaintext bound to any reference leaves the
    `execute` result, the log stream, the network-call counter, and the
    `testKey` result unchanged (the plaintext exists only inside the single
    outbound call, abstracted by `env`); a successful `registerKey` returns
    only the masked preview, in which a plaintext longer than the preview
    cannot occur as a substring; and the UI table row renders the record's
    `key_preview` — the `UIKey` record the UI receives has no plaintext
    field at all. -/
theorem c1_secret_never_exposed (env : OutboundRequest → EnvResponse) (now : ℚ)
    (st₁ st₂ : SysState) (kid : Nat) (req : RequestSpec)
    (henv : ∀ k p₁ p₂ r,
      env (injectCredential k p₁ r) = env (injectCredential k p₂ r))
    (hkeys : st₁.keys = st₂.keys)
    (hbucket : st₁.bucket = st₂.bucket)
    (hcalls : st₁.networkCalls = st₂.networkCalls)
    (hlogs : st₁.logs = st₂.logs)
    (hstore : st₁.store.secrets.map Prod.fst = st₂.store.secrets.map Prod.fst) :
    callerView (execute env now st₁ kid req)
      = callerView (execute env now st₂ kid req)
    ∧ (testKey env now st₁ kid req).1 = (testKey env now st₂ kid req).1
    ∧ (∀ s v, (registerKey st₁ s).1 = .ok v →
        v.key_preview = preview s.secret s.sensitivity
        ∧ (12 < s.secret.data.length → ¬ occursIn s.secret v.key_preview))
    ∧ (∀ v : KeyView, ∀ t : ℚ,
        (uiRowCells (uiOfView v) t).getD 3 "" = v.key_preview) := by
  have hcv := execute_low_equiv env now st₁ st₂ kid req henv hkeys hbucket
    hcalls hlogs hstore
  refine ⟨hcv, ?_, ?_, fun v t => rfl⟩
  · have hres₀ := congrArg Prod.fst hcv
    have hres : (execute env now st₁ kid req).1 = (execute env now st₂ kid req).1 :=
      hres₀
    rcases hx₁ : execute env now st₁ kid req with ⟨res₁, sA⟩
    rcases hx₂ : execute env now st₂ kid req with ⟨res₂, sB⟩
    rw [hx₁, hx₂] at hres
    simp only at hres
    simp only [testKey, hx₁, hx₂]
    rw [hres]
    cases res₂ with
    | ok r => rfl
    | error e => rfl
  · intro s v hv
    have hp := registerKey_ok_preview st₁ s v hv
    refine ⟨hp, fun hlen hocc => ?_⟩
    have h₁ := occursIn_length_le s.secret v.key_preview hocc
    rw [hp] at h₁
    have h₂ := preview_length_le s.secret s.sensitivity
    omega

/-- The rotation state with a different stored plaintext at reference 0. -/
def stRot2 : SysState := { stRot with store := ⟨[(0, "other-secret")], 1⟩ }

/-- Concrete instance of C1: swapping the stored plaintext of the key's
    secret leaves the caller view of `execute` unchanged. -/
theorem c1_secret_never_exposed_witness :
    callerView (execute wEnv 0 stRot 7 wReq)
      = callerView (execute wEnv 0 stRot2 7 wReq) :=
  (c1_secret_never_exposed wEnv 0 stRot stRot2 7 wReq
    (fun _ _ _ _ => rfl) rfl rfl rfl rfl rfl).1

/-- Sync job status (spec section 3). -/
inductive SyncStatus
  | pending
  | running
  | completed
  | failed
  | conflict
  deriving DecidableEq

/-- Modelled from the spec: a sync job record (spec section 3), trimmed to
    the fields the settled claims depend on. -/
structure SyncJob where
  id : Nat
  entityType : String
  entityId : Nat
  status : SyncStatus
  deriving DecidableEq

/-- Sync engine error (spec section 7). -/
inductive SyncErr
  | SyncInProgress
  deriving DecidableEq

/-- The Sync Engine's job table. -/
structure SyncState where
  jobs : List SyncJob
  nextId : Nat
  deriving DecidableEq

/-- Number of running jobs for one `(entityType, entityId)` pair. -/
def countRunning : List SyncJob → String → Nat → Nat
  | [], _, _ => 0
  | j :: rest, et, eid =>
    (if j.entityType = et ∧ j.entityId = eid ∧ j.status = .running then 1 else 0)
      + countRunning rest et eid

/-- Is a job for this entity currently in flight? -/
def hasRunning (st : SyncState) (et : String) (eid : Nat) : Bool :=
  decide (0 < countRunning st.jobs et eid)

/-- Modelled from the spec: `startSync` (spec 4.7) — a second request for an
    entity whose job is in flight fails with `SyncInProgress` and creates no
    job; otherwise a fresh running job is created. -/
def startSync (st : SyncState) (et : String) (eid : Nat) :
    Except SyncErr SyncJob × SyncState :=
  if hasRunning st et eid then (.error .SyncInProgress, st)
  else
    let j : SyncJob := ⟨st.nextId, et, eid, .running⟩
    (.ok j, ⟨j :: st.jobs, st.nextId + 1⟩)

/-- Modelled from the spec: the engine finishes a running job into a terminal
    status. -/
def finishJob (st : SyncState) (jid : Nat) (s : SyncStatus) : SyncState :=
  ⟨st.jobs.map (fun j => if j.id = jid then { j with status := s } else j),
   st.nextId⟩

/-- Transitions of the Sync Engine driven state machine. -/
inductive SyncStep : SyncState → SyncState → Prop
  | start (st : SyncState) (et : String) (eid : Nat) :
      SyncStep st (startSync st et eid).2
  | finish (st : SyncState) (jid : Nat) (s : SyncStatus)
      (hs : s = .completed ∨ s = .failed ∨ s = .conflict) :
      SyncStep st (finishJob st jid s)

/-- The empty initial job table. -/
def initSync : SyncState := ⟨[], 0⟩

/-- States reachable from the initial table by engine transitions. -/
inductive SyncReachable : SyncState → Prop
  | init : SyncReachable initSync
  | step (s₁ s₂ : SyncState) : SyncReachable s₁ → SyncStep s₁ s₂ → SyncReachable s₂

theorem hasRunning_false_count (st : SyncState) (et : String) (eid : Nat)
    (h : hasRunning st et eid = false) : countRunning st.jobs et eid = 0 := by
  simp only [hasRunning, decide_eq_false_iff_not, not_lt, Nat.le_zero] at h
  exact h

theorem countRunning_map_le (jobs : List SyncJob) (et : String) (eid : Nat)
    (f : SyncJob → SyncJob)
    (hf : ∀ j, (f j).entityType = j.entityType ∧ (f j).entityId = j.entityId
          ∧ ((f j).status = .running → j.status = .running)) :
    countRunning (jobs.map f) et eid ≤ countRunning jobs et eid := by
  induction jobs with
  | nil => exact Nat.le_refl _
  | cons j rest ih =>
    simp only [List.map_cons, countRunning]
    obtain ⟨h₁, h₂, h₃⟩ := hf j
    by_cases h : (f j).entityType = et ∧ (f j).entityId = eid ∧ (f j).status = .running
    · have hj : j.entityType = et ∧ j.entityId = eid ∧ j.status = .running :=
        ⟨h₁ ▸ h.1, h₂ ▸ h.2.1, h₃ h.2.2⟩
      rw [if_pos h, if_pos hj]
      omega
    · rw [if_neg h]
      have hle : (0 : Nat) ≤ if j.entityType = et ∧ j.entityId = eid
          ∧ j.status = .running then 1 else 0 := Nat.zero_le _
      omega

/-- Every reachable Sync Engine state has at most one running job per
    entity. -/
theorem reachable_at_most_one (st : SyncState) (h : SyncReachable st) :
    ∀ et eid, countRunning st.jobs et eid ≤ 1 := by
  induction h with
  | init => intro et eid; exact Nat.zero_le 1
  | step s₁ s₂ hr hstep ih =>
    cases hstep with
    | start et eid =>
      by_cases hrun : hasRunning s₁ et eid
      · intro et₂ eid₂
        simp only [startSync, if_pos hrun]
        exact ih et₂ eid₂
      · have hrf : hasRunning s₁ et eid = false := by
          cases hx : hasRunning s₁ et eid
          · rfl
          · exact absurd hx hrun
        intro et₂ eid₂
        simp only [startSync, if_neg hrun]
        show countRunning (⟨s₁.nextId, et, eid, SyncStatus.running⟩ :: s₁.jobs)
          et₂ eid₂ ≤ 1
        have hcons : countRunning
            (⟨s₁.nextId, et, eid, SyncStatus.running⟩ :: s₁.jobs) et₂ eid₂
            = (if et = et₂ ∧ eid = eid₂ then 1 else 0)
              + countRunning s₁.jobs et₂ eid₂ := by
          show (if et = et₂ ∧ eid = eid₂
              ∧ SyncStatus.running = SyncStatus.running then 1 else 0) + _ = _
          by_cases hm : et = et₂ ∧ eid = eid₂
          · rw [if_pos ⟨hm.1, hm.2, rfl⟩, if_pos hm]
          · have hn : ¬ (et = et₂ ∧ eid = eid₂
                ∧ SyncStatus.running = SyncStatus.running) :=
              fun hc => hm ⟨hc.1, hc.2.1⟩
            rw [if_neg hn, if_neg hm]
        rw [hcons]
        by_cases hm : et = et₂ ∧ eid = eid₂
        · rw [if_pos hm]
          obtain ⟨he, hi⟩ := hm
          subst he
          subst hi
          have h0 := hasRunning_false_count s₁ et eid hrf
          omega
        · rw [if_neg hm]
          have hb := ih et₂ eid₂
          omega
    | finish jid s hs =>
      intro et₂ eid₂
      refine (countRunning_map_le s₁.jobs et₂ eid₂
        (fun j => if j.id = jid then { j with status := s } else j)
        ?_).trans (ih et₂ eid₂)
      intro j
      by_cases hj : j.id = jid
      · rcases hs with h | h | h <;> subst h <;> simp [hj]
      · simp [hj]

/-- Claim C7: in every reachable state at most one job per
    `(entityType, entityId)` is running; when no job is in flight, the first
    `startSync` creates exactly one running job for the entity and a second
    identical request fails with `SyncInProgress`, creating no second job;
    and when a job is already in flight, `startSync` fails with
    `SyncInProgress` and leaves the state unchanged. -/
theorem c7_single_running_sync (st : SyncState) (et : String) (eid : Nat)
    (hreach : SyncReachable st) :
    (∀ et₂ eid₂, countRunning st.jobs et₂ eid₂ ≤ 1)
    ∧ (hasRunning st et eid = false →
        (∃ j, (startSync st et eid).1 = .ok j ∧ j.status = .running
           ∧ j.entityType = et ∧ j.entityId = eid)
        ∧ (startSync (startSync st et eid).2 et eid).1 = .error .SyncInProgress
        ∧ (startSync (startSync st et eid).2 et eid).2 = (startSync st et eid).2
        ∧ countRunning (startSync (startSync st et eid).2 et eid).2.jobs et eid = 1)
    ∧ (hasRunning st et eid = true →
        (startSync st et eid).1 = .error .SyncInProgress
        ∧ (startSync st et eid).2 = st) := by
  refine ⟨reachable_at_most_one st hreach, ?_, ?_⟩
  · intro hrf
    have hrun : ¬ hasRunning st et eid = true := by rw [hrf]; simp
    have h0 := hasRunning_false_count st et eid hrf
    have hs2 : (startSync st et eid).2
        = ⟨⟨st.nextId, et, eid, .running⟩ :: st.jobs, st.nextId + 1⟩ := by
      simp only [startSync, if_neg hrun]
    have hcount₂ : countRunning
        ((⟨⟨st.nextId, et, eid, SyncStatus.running⟩ :: st.jobs,
          st.nextId + 1⟩ : SyncState)).jobs et eid = 1 := by
      show (if et = et ∧ eid = eid ∧ SyncStatus.running = SyncStatus.running
          then 1 else 0) + countRunning st.jobs et eid = 1
      rw [if_pos ⟨rfl, rfl, rfl⟩, h0]
    have hrun₂ : hasRunning
        ((⟨⟨st.nextId, et, eid, SyncStatus.running⟩ :: st.jobs,
          st.nextId + 1⟩ : SyncState)) et eid = true := by
      simp only [hasRunning, hcount₂]
      rfl
    refine ⟨⟨⟨st.nextId, et, eid, .running⟩, ?_, rfl, rfl, rfl⟩, ?_, ?_, ?_⟩
    · simp only [startSync, if_neg hrun]
    · rw [hs2]
      simp only [startSync, if_pos hrun₂]
    · rw [hs2]
      simp only [startSync, if_pos hrun₂]
    · rw [hs2]
      simp only [startSync, if_pos hrun₂]
      exact hcount₂
  · intro hrt
    constructor
    · simp only [startSync, if_pos hrt]
    · simp only [startSync, if_pos hrt]

/-- Concrete instance of C7: from the empty table, two back-to-back
    `startSync` calls for the same entity yield one running job and one
    `SyncInProgress` error. -/
theorem c7_single_running_sync_witness :
    (∃ j, (startSync initSync "user" 123).1 = .ok j ∧ j.status = .running
       ∧ j.entityType = "user" ∧ j.entityId = 123)
    ∧ (startSync (startSync initSync "user" 123).2 "user" 123).1
        = .error .SyncInProgress :=
  have h := (c7_single_running_sync initSync "user" 123 SyncReachable.init).2.1
    (by decide)
  ⟨h.1, h.2.1⟩

/-- Conflict-resolution policy (spec section 3). -/
inductive ConflictPolicy
  | external_wins
  | internal_wins
  | merge
  | manual
  deriving DecidableEq

/-- A structured entity value: an association list from field name to atom. -/
abbrev FieldVal := List (String × String)

def lookupField : FieldVal → String → Option String
  | [], _ => none
  | e :: rest, f => if e.1 = f then some e.2 else lookupField rest f

/-- Modelled from the spec: `merge` (spec 4.7) — a field-level union in which
    non-overlapping keys from both sides are kept and overlapping keys follow
    external_wins. -/
def mergeValues (internalV externalV : FieldVal) : FieldVal :=
  externalV ++ internalV.filter (fun e => (lookupField externalV e.1).isNone)

/-- Modelled from the spec: each conflict-resolution strategy as a pure
    function from (internal value, external value, prior synced value) to a
    resolved value plus conflict flag (spec design notes and 4.7); `manual`
    raises the flag exactly when both sides changed since the prior value. -/
def resolve (p : ConflictPolicy) (internalV externalV priorV : FieldVal) :
    FieldVal × Bool :=
  match p with
  | .external_wins => (externalV, false)
  | .internal_wins => (internalV, false)
  | .merge => (mergeValues internalV externalV, false)
  | .manual =>
    if internalV ≠ priorV ∧ externalV ≠ priorV then (priorV, true)
    else if internalV ≠ priorV then (internalV, false)
    else (externalV, false)

/-- Modelled from the spec: one engine step applies the selected strategy; a
    raised conflict flag halts the job in `conflict`. -/
def applyResolution (j : SyncJob) (p : ConflictPolicy)
    (internalV externalV priorV : FieldVal) : SyncJob × FieldVal :=
  let r := resolve p internalV externalV priorV
  (if r.2 then { j with status := .conflict } else j, r.1)

theorem lookupField_append_left (l₁ l₂ : FieldVal) (f : String) (x : String)
    (h : lookupField l₁ f = some x) :
    lookupField (l₁ ++ l₂) f = some x := by
  induction l₁ with
  | nil => simp [lookupField] at h
  | cons e rest ih =>
    simp only [lookupField] at h
    simp only [List.cons_append, lookupField]
    by_cases he : e.1 = f
    · rw [if_pos he] at h ⊢
      exact h
    · rw [if_neg he] at h ⊢
      exact ih h

theorem lookupField_mergeValues_some (iv ev : FieldVal) (f : String) (x : String)
    (h : lookupField ev f = some x) :
    lookupField (mergeValues iv ev) f = some x :=
  lookupField_append_left ev _ f x h

theorem lookupField_filter_keep (iv : FieldVal) (p : String × String → Bool)
    (f : String) (hp : ∀ v, p (f, v) = true) :
    lookupField (iv.filter p) f = lookupField iv f := by
  induction iv with
  | nil => rfl
  | cons e rest ih =>
    by_cases he : e.1 = f
    · have hef : e = (f, e.2) := by
        cases e
        simp only [Prod.mk.injEq]
        exact ⟨he, trivial⟩
      rw [List.filter_cons, hef, hp e.2]
      simp only [if_pos rfl]
      simp only [lookupField, if_pos rfl]
      rw [hef] at he ⊢
      simp [lookupField]
    · rw [List.filter_cons]
      cases hpe : p e with
      | true =>
        simp only [if_pos rfl]
        simp only [lookupField, if_neg he]
        exact ih
      | false =>
        simp only [Bool.false_eq_true, if_false]
        simp only [lookupField, if_neg he]
        exact ih

theorem lookupField_mergeValues_none (iv ev : FieldVal) (f : String)
    (h : lookupField ev f = none) :
    lookupField (mergeValues iv ev) f = lookupField iv f := by
  unfold mergeValues
  have hskip : ∀ (l : FieldVal), lookupField l f = none →
      lookupField (l ++ iv.filter (fun e => (lookupField ev e.1).isNone)) f
        = lookupField (iv.filter (fun e => (lookupField ev e.1).isNone)) f := by
    intro l
    induction l with
    | nil => intro _; rfl
    | cons e rest ih =>
      intro hl
      simp only [lookupField] at hl
      by_cases he : e.1 = f
      · rw [if_pos he] at hl
        exact absurd hl (by simp)
      · rw [if_neg he] at hl
        simp only [List.cons_append, lookupField, if_neg he]
        exact ih hl
  rw [hskip ev h]
  exact lookupField_filter_keep iv _ f (fun v => by simp [h])

/-- Claim C8: conflict resolution is a pure function of (internal, external,
    prior synced) values: `external_wins` and `internal_wins` resolve to the
    respective side with no conflict; `merge` yields the field-level union in
    which a key present externally takes the external value and a key present
    only internally is kept; and when both sides changed since the prior
    value under policy `manual`, the job halts in `conflict`. -/
theorem c8_conflict_resolution (iv ev pv : FieldVal) (f : String) (j : SyncJob)
    (p : ConflictPolicy) :
    resolve .external_wins iv ev pv = (ev, false)
    ∧ resolve .internal_wins iv ev pv = (iv, false)
    ∧ (∀ x, lookupField ev f = some x →
        lookupField (resolve .merge iv ev pv).1 f = some x)
    ∧ (lookupField ev f = none →
        lookupField (resolve .merge iv ev pv).1 f = lookupField iv f)
    ∧ (iv ≠ pv → ev ≠ pv →
        (applyResolution j .manual iv ev pv).1.status = .conflict)
    ∧ (∀ iv₂ ev₂ pv₂, iv = iv₂ → ev = ev₂ → pv = pv₂ →
        resolve p iv ev pv = resolve p iv₂ ev₂ pv₂) := by
  refine ⟨rfl, rfl, ?_, ?_, ?_, ?_⟩
  · intro x hx
    exact lookupField_mergeValues_some iv ev f x hx
  · intro hx
    exact lookupField_mergeValues_none iv ev f hx
  · intro h₁ h₂
    simp [applyResolution, resolve, h₁, h₂]
  · intro iv₂ ev₂ pv₂ hiv hev hpv
    rw [hiv, hev, hpv]

/-- A concrete running job for the C8 witness. -/
def jW : SyncJob := ⟨0, "user", 123, .running⟩

/-- Concrete instance of C8: with both sides changed since the prior value,
    policy `manual` halts the job in `conflict`, and `merge` keeps the
    internal-only field while the overlapping field takes the external
    value. -/
theorem c8_conflict_resolution_witness :
    (applyResolution jW .manual [("a", "1")] [("a", "2")] []).1.status
        = SyncStatus.conflict
    ∧ lookupField (resolve .merge [("a", "1"), ("b", "3")] [("a", "2")] []).1 "a"
        = some "2"
    ∧ lookupField (resolve .merge [("a", "1"), ("b", "3")] [("a", "2")] []).1 "b"
        = some "3" := by
  refine ⟨?_, ?_, ?_⟩
  · exact (c8_conflict_resolution [("a", "1")] [("a", "2")] [] "a" jW
      .manual).2.2.2.2.1 (by decide) (by decide)
  · exact (c8_conflict_resolution [("a", "1"), ("b", "3")] [("a", "2")] [] "a" jW
      .merge).2.2.1 "2" (by decide)
  · have h := (c8_conflict_resolution [("a", "1"), ("b", "3")] [("a", "2")] [] "b"
      jW .merge).2.2.2.1 (by decide)
    rw [h]
    decide

end Storm
